import Mathlib

/-
Shallow embedding of the real-time voice session manager of
Universal-AI-Assistant (class `GeminiLive` and helpers in the service
module): PCM framing (`encodeAudio` / the decoding half of `playAudio`),
the playback scheduler, transcript accumulation, interruption handling,
the tool dispatcher, and the connect/disconnect lifecycle.

Audio samples are modelled as rationals: every arithmetic step of the
source (multiplication by 32768, clamping, truncation toward zero,
division by 32768.0) is exact in binary floating point, so the rational
model computes the same values the JavaScript does on representable
inputs.  Machine integers are Nat/Int with explicit bounds.  The
browser primitives `btoa`/`atob` (the transport text encoding the source
calls) are modelled as standard base64 with padding.
-/

namespace UniversalAI

/-! ### Base64 transport encoding (`btoa` / `atob` as used by the source) -/

/-- The standard base64 alphabet used by `btoa`/`atob`. -/
def b64Alphabet : List Char :=
  ['A','B','C','D','E','F','G','H','I','J','K','L','M','N','O','P',
   'Q','R','S','T','U','V','W','X','Y','Z',
   'a','b','c','d','e','f','g','h','i','j','k','l','m','n','o','p',
   'q','r','s','t','u','v','w','x','y','z',
   '0','1','2','3','4','5','6','7','8','9','+','/']

/-- Character for a 6-bit group. -/
def b64Char (n : Nat) : Char := b64Alphabet.getD n 'A'

/-- Index of a base64 character in the alphabet (inverse of `b64Char`). -/
def b64Index (c : Char) : Nat := b64Alphabet.indexOf c

/-- Model of the browser `btoa`: base64-encode a byte sequence
(3 input bytes per 4 output characters, zero-bit padding and `=` pad
characters at the end). -/
def btoa : List Nat → List Char
  | [] => []
  | [a] =>
      let n := a * 65536
      [b64Char (n / 262144), b64Char (n / 4096 % 64), '=', '=']
  | [a, b] =>
      let n := a * 65536 + b * 256
      [b64Char (n / 262144), b64Char (n / 4096 % 64), b64Char (n / 64 % 64), '=']
  | a :: b :: c :: rest =>
      let n := a * 65536 + b * 256 + c
      b64Char (n / 262144) :: b64Char (n / 4096 % 64) :: b64Char (n / 64 % 64) ::
        b64Char (n % 64) :: btoa rest

/-- Model of the browser `atob`: base64-decode to a byte sequence,
honouring `=` padding in the final quartet. -/
def atob : List Char → List Nat
  | c0 :: c1 :: c2 :: c3 :: rest =>
      if c2 = '=' then
        [(b64Index c0 * 262144 + b64Index c1 * 4096) / 65536]
      else if c3 = '=' then
        let n := b64Index c0 * 262144 + b64Index c1 * 4096 + b64Index c2 * 64
        [n / 65536, n / 256 % 256]
      else
        let n := b64Index c0 * 262144 + b64Index c1 * 4096 + b64Index c2 * 64 + b64Index c3
        n / 65536 :: n / 256 % 256 :: n % 256 :: atob rest
  | _ => []

theorem b64Index_b64Char : ∀ n, n < 64 → b64Index (b64Char n) = n := by decide

theorem b64Char_ne_pad : ∀ n, n < 64 → b64Char n ≠ '=' := by decide

theorem atob_btoa : ∀ bs : List Nat, (∀ x ∈ bs, x < 256) → atob (btoa bs) = bs
  | [], _ => rfl
  | [a], h => by
      have ha : a < 256 := h a (by simp)
      simp only [btoa, atob]
      rw [b64Index_b64Char _ (by omega), b64Index_b64Char _ (by omega)]
      simp only [if_true, List.cons.injEq, and_true]
      omega
  | [a, b], h => by
      have ha : a < 256 := h a (by simp)
      have hb : b < 256 := h b (by simp)
      simp only [btoa, atob]
      rw [if_neg (b64Char_ne_pad _ (by omega))]
      rw [b64Index_b64Char _ (by omega), b64Index_b64Char _ (by omega),
        b64Index_b64Char _ (by omega)]
      simp only [if_true, List.cons.injEq, and_true]
      omega
  | a :: b :: c :: rest, h => by
      have ha : a < 256 := h a (by simp)
      have hb : b < 256 := h b (by simp)
      have hc : c < 256 := h c (by simp)
      have ih := atob_btoa rest (fun x hx => h x (by simp [hx]))
      simp only [btoa, atob]
      rw [if_neg (b64Char_ne_pad _ (by omega)), if_neg (b64Char_ne_pad _ (by omega))]
      rw [b64Index_b64Char _ (by omega), b64Index_b64Char _ (by omega),
        b64Index_b64Char _ (by omega), b64Index_b64Char _ (by omega)]
      simp only [List.cons.injEq]
      refine ⟨by omega, by omega, by omega, ih⟩

/-! ### PCM framer: `GeminiLive.encodeAudio` and the decoding half of
`GeminiLive.playAudio` -/

/-- Truncation toward zero, the conversion JavaScript applies when a
number is stored into an `Int16Array` element. -/
def ratTrunc (q : ℚ) : Int := if 0 ≤ q then ⌊q⌋ else ⌈q⌉

/-- One sample of `encodeAudio`:
`Math.max(-32768, Math.min(32767, inputData[i] * 32768))`, then the
`Int16Array` store truncates toward zero. -/
def encodeSample (x : ℚ) : Int :=
  ratTrunc (max (-32768) (min 32767 (x * 32768)))

/-- Two's-complement 16-bit image of a signed value, as it sits in the
`Int16Array` backing buffer. -/
def uint16Of (v : Int) : Nat := (v % 65536).toNat

/-- Little-endian byte pair of one 16-bit sample (the `Uint8Array` view
of the `Int16Array` buffer). -/
def int16ToBytesLE (v : Int) : List Nat :=
  [uint16Of v % 256, uint16Of v / 256]

/-- Reinterpret a 16-bit unsigned value as signed (what reading an
`Int16Array` element yields). -/
def toSigned16 (u : Nat) : Int := if u < 32768 then (u : Int) else (u : Int) - 65536

/-- Pair up a little-endian byte sequence into signed 16-bit samples
(`new Int16Array(bytes.buffer)` in `playAudio`). -/
def bytesToInt16s : List Nat → List Int
  | b0 :: b1 :: rest => toSigned16 (b0 + 256 * b1) :: bytesToInt16s rest
  | _ => []

/-- `GeminiLive.encodeAudio`: clamp and quantize each sample to signed
16-bit, pack little-endian, base64-encode (`btoa`). -/
def encodeAudio (samples : List ℚ) : List Char :=
  btoa (samples.flatMap (fun x => int16ToBytesLE (encodeSample x)))

/-- The decoding chain of `GeminiLive.playAudio`: `atob`, reinterpret the
bytes as little-endian signed 16-bit integers, divide by 32768.0. -/
def decodeAudio (s : List Char) : List ℚ :=
  (bytesToInt16s (atob s)).map (fun v : Int => (v : ℚ) / 32768)

theorem encodeSample_lb (x : ℚ) : -32768 ≤ encodeSample x := by
  unfold encodeSample ratTrunc
  set c : ℚ := max (-32768) (min 32767 (x * 32768)) with hc
  have h1 : (-32768 : ℚ) ≤ c := le_max_left _ _
  split
  · calc (-32768 : Int) = ⌊(-32768 : ℚ)⌋ := by norm_num
      _ ≤ ⌊c⌋ := Int.floor_le_floor h1
  · have h2 : ((-32768 : Int) : ℚ) ≤ (⌈c⌉ : ℚ) := by
      have := Int.le_ceil c
      push_cast
      linarith
    exact_mod_cast h2

theorem encodeSample_ub (x : ℚ) : encodeSample x ≤ 32767 := by
  unfold encodeSample ratTrunc
  set c : ℚ := max (-32768) (min 32767 (x * 32768)) with hc
  have h1 : c ≤ 32767 := by
    apply max_le
    · norm_num
    · exact min_le_left _ _
  split
  · calc ⌊c⌋ ≤ ⌊(32767 : ℚ)⌋ := Int.floor_le_floor h1
      _ = 32767 := by norm_num
  · rename_i hneg
    push_neg at hneg
    have : ⌈c⌉ ≤ ⌈(0 : ℚ)⌉ := Int.ceil_le_ceil hneg.le
    simpa using this.trans (by norm_num)

theorem int16ToBytesLE_lt_256 (v : Int) : ∀ b ∈ int16ToBytesLE v, b < 256 := by
  intro b hb
  have h : 0 ≤ v % 65536 := Int.emod_nonneg v (by norm_num)
  have h2 : v % 65536 < 65536 := Int.emod_lt_of_pos v (by norm_num)
  simp only [int16ToBytesLE, uint16Of, List.mem_cons, List.mem_singleton,
    List.not_mem_nil, or_false] at hb
  rcases hb with rfl | rfl <;> omega

theorem bytesToInt16s_pair (v : Int) (hlb : -32768 ≤ v) (hub : v ≤ 32767)
    (rest : List Nat) :
    bytesToInt16s (int16ToBytesLE v ++ rest) = v :: bytesToInt16s rest := by
  have h : 0 ≤ v % 65536 := Int.emod_nonneg v (by norm_num)
  have h2 : v % 65536 < 65536 := Int.emod_lt_of_pos v (by norm_num)
  simp only [int16ToBytesLE, uint16Of, List.cons_append, List.nil_append,
    bytesToInt16s, toSigned16, List.cons.injEq, and_true]
  constructor
  · split <;> omega
  · rfl

/-- Decoding an encoded sample list recovers exactly the quantized
samples: `decode ∘ encode = map (quantize · / 32768)`. -/
theorem decodeAudio_encodeAudio (xs : List ℚ) :
    decodeAudio (encodeAudio xs) = xs.map (fun x => ((encodeSample x : ℚ)) / 32768) := by
  unfold decodeAudio encodeAudio
  rw [atob_btoa _ (by
    intro b hb
    rw [List.mem_flatMap] at hb
    obtain ⟨x, _, hbx⟩ := hb
    exact int16ToBytesLE_lt_256 _ b hbx)]
  induction xs with
  | nil => rfl
  | cons x xs ih =>
      rw [List.flatMap_cons,
        bytesToInt16s_pair _ (encodeSample_lb x) (encodeSample_ub x), List.map_cons,
        List.map_cons]
      exact congrArg _ ih

/-- Per-sample quantization error: at most one 16-bit step. -/
theorem encodeSample_error (x : ℚ) (hlb : -1 ≤ x) (hub : x ≤ 1) :
    |((encodeSample x : ℚ)) / 32768 - x| ≤ 1 / 32768 := by
  have key : |((encodeSample x : ℚ)) - x * 32768| ≤ 1 := by
    unfold encodeSample
    set v : ℚ := x * 32768 with hv
    have hvlb : -32768 ≤ v := by rw [hv]; linarith
    have hvub : v ≤ 32768 := by rw [hv]; linarith
    rcases le_or_lt v 32767 with hle | hgt
    · have hcv : max (-32768 : ℚ) (min 32767 v) = v := by
        rw [min_eq_right hle, max_eq_right hvlb]
      rw [hcv]
      unfold ratTrunc
      split
      · have h1 := Int.floor_le v
        have h2 := Int.lt_floor_add_one v
        rw [abs_le]; constructor <;> linarith
      · have h1 := Int.le_ceil v
        have h2 := Int.ceil_lt_add_one v
        rw [abs_le]; constructor <;> linarith
    · have hcv : max (-32768 : ℚ) (min 32767 v) = 32767 := by
        rw [min_eq_left hgt.le, max_eq_right (by norm_num)]
      rw [hcv]
      unfold ratTrunc
      rw [if_pos (by norm_num)]
      have h327 : ⌊(32767 : ℚ)⌋ = 32767 := by norm_num
      rw [h327]
      rw [abs_le]
      constructor <;> push_cast <;> linarith
  have h32 : (0 : ℚ) < 32768 := by norm_num
  have hsplit : ((encodeSample x : ℚ)) / 32768 - x
      = (((encodeSample x : ℚ)) - x * 32768) / 32768 := by ring
  rw [hsplit, abs_div, abs_of_pos h32]
  linarith [key]

/-- C1: for every sequence of samples in [-1,1] (including the empty
sequence), decoding the transport text produced by `encodeAudio` (clamp,
scale by 32768 with truncation toward zero, 16-bit little-endian pack,
base64) through `playAudio`'s decoding chain yields a sequence of the
same length whose i-th element differs from the i-th input sample by at
most 1/32768. -/
theorem pcm_roundtrip (xs : List ℚ) (h : ∀ x ∈ xs, -1 ≤ x ∧ x ≤ 1) :
    (decodeAudio (encodeAudio xs)).length = xs.length ∧
    ∀ i, i < xs.length →
      |(decodeAudio (encodeAudio xs)).getD i 0 - xs.getD i 0| ≤ 1 / 32768 := by
  rw [decodeAudio_encodeAudio]
  refine ⟨List.length_map _ _, ?_⟩
  intro i hi
  have hlen : i < (xs.map (fun x => ((encodeSample x : ℚ)) / 32768)).length := by
    simpa using hi
  rw [List.getD_eq_getElem _ _ hlen, List.getD_eq_getElem _ _ hi, List.getElem_map]
  have hmem : xs[i] ∈ xs := List.getElem_mem hi
  exact encodeSample_error _ (h _ hmem).1 (h _ hmem).2

/-- Witness for C1 at the concrete input [1, -1/2, 0]. -/
theorem pcm_roundtrip_witness :
    (decodeAudio (encodeAudio [1, -(1:ℚ)/2, 0])).length = 3 ∧
    ∀ i, i < ([1, -(1:ℚ)/2, 0] : List ℚ).length →
      |(decodeAudio (encodeAudio [1, -(1:ℚ)/2, 0])).getD i 0
        - ([1, -(1:ℚ)/2, 0] : List ℚ).getD i 0| ≤ 1 / 32768 :=
  ⟨(pcm_roundtrip [1, -(1:ℚ)/2, 0]
      (by intro x hx; simp only [List.mem_cons, List.not_mem_nil, or_false] at hx
          rcases hx with rfl | rfl | rfl <;> norm_num)).1,
   (pcm_roundtrip [1, -(1:ℚ)/2, 0]
      (by intro x hx; simp only [List.mem_cons, List.not_mem_nil, or_false] at hx
          rcases hx with rfl | rfl | rfl <;> norm_num)).2⟩

/-! ### Session state (`class GeminiLive`)

The mutable fields of `GeminiLive` become a state record; the browser
handles (`MediaStream`, the two `AudioContext`s, the session promise)
are tracked as held/not-held booleans; `AudioBufferSourceNode` objects
in the `sources` set are identified by a counter.  Each operation
returns the new state together with the list of externally observable
effects (caller callbacks, transport sends, device operations) in the
order the source performs them. -/

/-- Externally observable effects of the session. -/
inductive Event where
  | statusChange (active : Bool)
  | transcriptUpdate (user model : String) (isFinal : Bool)
  | imageGenerated (data : String)
  | toolResponse (id name result : String)
  | startSource (id : Nat) (time : ℚ)
  | stopSource (id : Nat)
  | releaseStream
  | closeInputCtx
  | closeOutputCtx
  | captureStarted
deriving DecidableEq

/-- The mutable fields of `GeminiLive`. -/
structure LiveState where
  audioContext : Bool
  inputAudioContext : Bool
  stream : Bool
  nextStartTime : ℚ
  sources : List Nat
  sourceCounter : Nat
  sessionPromise : Bool
  currentInputTranscription : String
  currentOutputTranscription : String
deriving DecidableEq

/-- State of a freshly constructed `GeminiLive` (all handles null,
cursor 0, empty buffers). -/
def initialState : LiveState :=
  { audioContext := false, inputAudioContext := false, stream := false,
    nextStartTime := 0, sources := [], sourceCounter := 0,
    sessionPromise := false,
    currentInputTranscription := "", currentOutputTranscription := "" }

/-- Result shape of the external image-generation action
(`ImageGenerationResult` of the source). -/
structure ImageGenerationResult where
  success : Bool
  data : Option String
  error : Option String

/-- One entry of a tool-call event (`{id, name, args}`; `args.prompt`
is the only argument used). -/
structure FunctionCall where
  id : String
  name : String
  args : String

/-- An inbound `LiveServerMessage` as `handleMessage` reads it: optional
audio payload, optional transcription partials, turn-complete and
interruption flags, optional tool call. -/
structure ServerMessage where
  audioData : Option (List Char)
  outputTranscription : Option String
  inputTranscription : Option String
  turnComplete : Bool
  interrupted : Bool
  toolCall : Option (List FunctionCall)

/-- Chunk duration in seconds, as `createBuffer(1, dataInt16.length,
24000)` yields `buffer.duration = length / 24000`. -/
def chunkDuration (d : List Char) : ℚ :=
  ((bytesToInt16s (atob d)).length : ℚ) / 24000

/-- `GeminiLive.playAudio`: decode base64 to 16-bit samples, schedule a
buffer source at `max(currentTime, nextStartTime)` and advance the
cursor by the buffer duration.  A missing output context is an early
return; an odd byte count (`Int16Array` constructor) or an empty buffer
(`createBuffer`) throws inside the try block, which the catch turns
into a no-op. -/
def playAudio (st : LiveState) (now : ℚ) (data : List Char) : LiveState × List Event :=
  if st.audioContext = false then (st, [])
  else if (atob data).length % 2 = 0 ∧ (atob data).length ≠ 0 then
    ({ st with nextStartTime := max now st.nextStartTime + chunkDuration data,
               sources := st.sources ++ [st.sourceCounter],
               sourceCounter := st.sourceCounter + 1 },
     [Event.startSource st.sourceCounter (max now st.nextStartTime)])
  else (st, [])

/-- `GeminiLive.stopAudio`: force-stop every scheduled source and clear
the set. -/
def stopAudio (st : LiveState) : LiveState × List Event :=
  ({ st with sources := [] }, st.sources.map Event.stopSource)

/-- JavaScript truthiness of an optional string (`undefined` and `""`
are falsy). -/
def strTruthy (o : Option String) : Bool :=
  match o with
  | some s => !s.isEmpty
  | none => false

/-- String interpolation of an optional value (`undefined` prints as
"undefined"). -/
def jsShow (o : Option String) : String := o.getD "undefined"

/-- One iteration of `handleToolCall`'s loop: for a `create_image` call,
run the image action, fire `onImageGenerated` on success, and send the
correlated tool response through the session promise (dropped when the
promise is null). -/
def processCall (st : LiveState) (oracle : String → ImageGenerationResult)
    (call : FunctionCall) : List Event :=
  if call.name = "create_image" then
    let result := oracle call.args
    let sendEvents : String → List Event := fun content =>
      if st.sessionPromise then [Event.toolResponse call.id call.name content] else []
    if result.success && strTruthy result.data then
      Event.imageGenerated (result.data.getD "")
        :: sendEvents "Image generated successfully."
    else
      sendEvents ("Error: " ++ jsShow result.error)
  else []

/-- `GeminiLive.handleToolCall`: iterate over `functionCalls`; the
instance fields are never mutated.  The external image action is
supplied as an oracle from prompt to result. -/
def handleToolCall (st : LiveState) (oracle : String → ImageGenerationResult)
    (calls : List FunctionCall) : LiveState × List Event :=
  (st, calls.flatMap (processCall st oracle))

/-- `GeminiLive.handleMessage`: dispatch one inbound message through the
audio, transcription, turn-complete, interruption and tool-call branches
in source order. -/
def handleMessage (st : LiveState) (now : ℚ) (oracle : String → ImageGenerationResult)
    (msg : ServerMessage) : LiveState × List Event :=
  let r1 : LiveState × List Event :=
    match msg.audioData with
    | some d => if d ≠ [] ∧ st.audioContext then playAudio st now d else (st, [])
    | none => (st, [])
  let st1 := r1.1
  let r2 : LiveState × List Event :=
    match msg.outputTranscription with
    | some t =>
        let st2 := { st1 with currentOutputTranscription := st1.currentOutputTranscription ++ t }
        (st2, [Event.transcriptUpdate st2.currentInputTranscription
                st2.currentOutputTranscription false])
    | none => (st1, [])
  let st2 := r2.1
  let r3 : LiveState × List Event :=
    match msg.inputTranscription with
    | some t =>
        let st3 := { st2 with currentInputTranscription := st2.currentInputTranscription ++ t }
        (st3, [Event.transcriptUpdate st3.currentInputTranscription
                st3.currentOutputTranscription false])
    | none => (st2, [])
  let st3 := r3.1
  let r4 : LiveState × List Event :=
    if msg.turnComplete then
      ({ st3 with currentInputTranscription := "", currentOutputTranscription := "" },
       [Event.transcriptUpdate st3.currentInputTranscription
          st3.currentOutputTranscription true])
    else (st3, [])
  let st4 := r4.1
  let r5 : LiveState × List Event :=
    if msg.interrupted then
      let s := stopAudio st4
      ({ s.1 with currentOutputTranscription := "", nextStartTime := 0 }, s.2)
    else (st4, [])
  let st5 := r5.1
  let r6 : LiveState × List Event :=
    match msg.toolCall with
    | some calls => handleToolCall st5 oracle calls
    | none => (st5, [])
  (r6.1, r1.2 ++ r2.2 ++ r3.2 ++ r4.2 ++ r5.2 ++ r6.2)

/-- `GeminiLive.handleOpen`: early return when the stream or the input
context is missing; otherwise wire the capture chain. -/
def handleOpen (st : LiveState) : LiveState × List Event :=
  if st.stream ∧ st.inputAudioContext then (st, [Event.captureStarted]) else (st, [])

/-- `GeminiLive.disconnect`: fire the status callback with false
unconditionally, then release the stream and close each context only if
still held, null the session promise and clear both transcript
buffers.  `nextStartTime` and `sources` are not touched. -/
def disconnect (st : LiveState) : LiveState × List Event :=
  let e2 : List Event := if st.stream then [Event.releaseStream] else []
  let e3 : List Event := if st.inputAudioContext then [Event.closeInputCtx] else []
  let e4 : List Event := if st.audioContext then [Event.closeOutputCtx] else []
  ({ st with stream := false, inputAudioContext := false, audioContext := false,
             sessionPromise := false,
             currentInputTranscription := "", currentOutputTranscription := "" },
   Event.statusChange false :: (e2 ++ e3 ++ e4))

/-- `GeminiLive.connect`: create both audio contexts, await microphone
access (`userMediaOk` is its outcome), fire the status callback with
true, then start the transport connect; on failure the catch block runs
`disconnect()` and rethrows (the returned flag is false when the error
propagates). -/
def connect (st : LiveState) (userMediaOk : Bool) : LiveState × List Event × Bool :=
  let st1 := { st with inputAudioContext := true, audioContext := true }
  if userMediaOk then
    let st2 := { st1 with stream := true, sessionPromise := true }
    (st2, ([Event.statusChange true], true))
  else
    let r := disconnect st1
    (r.1, (r.2, false))

/-- A pure interruption event (`serverContent.interrupted` with no other
payload). -/
def interruptionMsg : ServerMessage :=
  { audioData := none, outputTranscription := none, inputTranscription := none,
    turnComplete := false, interrupted := true, toolCall := none }

/-- A pure turn-complete event. -/
def turnCompleteMsg : ServerMessage :=
  { audioData := none, outputTranscription := none, inputTranscription := none,
    turnComplete := true, interrupted := false, toolCall := none }

/-- C3: processing the interruption event (the code path on which the
scheduler's stop-all runs: `stopAudio()` followed by
`nextStartTime = 0`) force-stops every unit of the active set, leaves
the active set empty, and leaves `nextStartTime` equal to 0. -/
theorem stopAll_resets (st : LiveState) (now : ℚ)
    (oracle : String → ImageGenerationResult) :
    (∀ u ∈ st.sources, Event.stopSource u ∈ (handleMessage st now oracle interruptionMsg).2) ∧
    (handleMessage st now oracle interruptionMsg).1.sources = [] ∧
    (handleMessage st now oracle interruptionMsg).1.nextStartTime = 0 := by
  refine ⟨?_, rfl, rfl⟩
  intro u hu
  simp [handleMessage, interruptionMsg, stopAudio, List.mem_map]
  exact hu

/-- C4: processing an interruption event stops all scheduled playback,
resets the output transcript buffer to the empty string, leaves the
input transcript buffer unchanged, and leaves `nextStartTime` at 0. -/
theorem interruption_effects (st : LiveState) (now : ℚ)
    (oracle : String → ImageGenerationResult) :
    (handleMessage st now oracle interruptionMsg).1.sources = [] ∧
    (∀ u ∈ st.sources, Event.stopSource u ∈ (handleMessage st now oracle interruptionMsg).2) ∧
    (handleMessage st now oracle interruptionMsg).1.currentOutputTranscription = "" ∧
    (handleMessage st now oracle interruptionMsg).1.currentInputTranscription
      = st.currentInputTranscription ∧
    (handleMessage st now oracle interruptionMsg).1.nextStartTime = 0 := by
  refine ⟨rfl, ?_, rfl, rfl, rfl⟩
  intro u hu
  simp [handleMessage, interruptionMsg, stopAudio, List.mem_map]
  exact hu

/-- Process a list of inbound messages in order. -/
def processAll (st : LiveState) (now : ℚ) (oracle : String → ImageGenerationResult) :
    List ServerMessage → LiveState × List Event
  | [] => (st, [])
  | m :: ms =>
      let r := handleMessage st now oracle m
      let r2 := processAll r.1 now oracle ms
      (r2.1, r.2 ++ r2.2)

/-- A transcript partial event for one of the two directions. -/
inductive TranscriptPartial where
  | inputPart (t : String)
  | outputPart (t : String)

/-- The inbound message carrying one transcript partial. -/
def partialMsg : TranscriptPartial → ServerMessage
  | .inputPart t =>
      { audioData := none, outputTranscription := none, inputTranscription := some t,
        turnComplete := false, interrupted := false, toolCall := none }
  | .outputPart t =>
      { audioData := none, outputTranscription := some t, inputTranscription := none,
        turnComplete := false, interrupted := false, toolCall := none }

/-- Concatenation, in arrival order, of the input-direction partials. -/
def inputConcat : List TranscriptPartial → String
  | [] => ""
  | .inputPart t :: ps => t ++ inputConcat ps
  | .outputPart _ :: ps => inputConcat ps

/-- Concatenation, in arrival order, of the output-direction partials. -/
def outputConcat : List TranscriptPartial → String
  | [] => ""
  | .inputPart _ :: ps => outputConcat ps
  | .outputPart t :: ps => t ++ outputConcat ps

theorem processAll_partials (now : ℚ) (oracle : String → ImageGenerationResult) :
    ∀ (ps : List TranscriptPartial) (st : LiveState),
    (processAll st now oracle (ps.map partialMsg)).1 =
      { st with
          currentInputTranscription := st.currentInputTranscription ++ inputConcat ps,
          currentOutputTranscription := st.currentOutputTranscription ++ outputConcat ps }
  | [], st => by simp [processAll, inputConcat, outputConcat]
  | .inputPart t :: ps, st => by
      rw [List.map_cons]
      show (processAll (handleMessage st now oracle (partialMsg (.inputPart t))).1
              now oracle (ps.map partialMsg)).1 = _
      rw [processAll_partials now oracle ps]
      simp [handleMessage, partialMsg, inputConcat, outputConcat, String.append_assoc]
  | .outputPart t :: ps, st => by
      rw [List.map_cons]
      show (processAll (handleMessage st now oracle (partialMsg (.outputPart t))).1
              now oracle (ps.map partialMsg)).1 = _
      rw [processAll_partials now oracle ps]
      simp [handleMessage, partialMsg, inputConcat, outputConcat, String.append_assoc]

/-- C5: after any sequence of transcript partials (from empty turn
buffers) followed by a turn-complete event, the turn-complete handler
fires exactly one callback, with `isFinal := true` and the full
concatenations of the partials in arrival order, and both buffers are
empty immediately afterwards. -/
theorem turn_complete_transcripts (st0 : LiveState) (now : ℚ)
    (oracle : String → ImageGenerationResult) (ps : List TranscriptPartial)
    (hIn : st0.currentInputTranscription = "")
    (hOut : st0.currentOutputTranscription = "") :
    (handleMessage (processAll st0 now oracle (ps.map partialMsg)).1 now oracle
        turnCompleteMsg).2
      = [Event.transcriptUpdate (inputConcat ps) (outputConcat ps) true] ∧
    (handleMessage (processAll st0 now oracle (ps.map partialMsg)).1 now oracle
        turnCompleteMsg).1.currentInputTranscription = "" ∧
    (handleMessage (processAll st0 now oracle (ps.map partialMsg)).1 now oracle
        turnCompleteMsg).1.currentOutputTranscription = "" := by
  rw [processAll_partials now oracle ps st0]
  refine ⟨?_, rfl, rfl⟩
  simp [handleMessage, turnCompleteMsg, hIn, hOut]

/-- Witness for C5 at a concrete partial sequence. -/
theorem turn_complete_transcripts_witness :
    (handleMessage (processAll initialState 0 (fun _ => ⟨false, none, none⟩)
        (([.inputPart "hel", .outputPart "wor", .inputPart "lo"] :
          List TranscriptPartial).map partialMsg)).1 0 (fun _ => ⟨false, none, none⟩)
        turnCompleteMsg).2
      = [Event.transcriptUpdate
          (inputConcat [.inputPart "hel", .outputPart "wor", .inputPart "lo"])
          (outputConcat [.inputPart "hel", .outputPart "wor", .inputPart "lo"]) true] ∧
    (handleMessage (processAll initialState 0 (fun _ => ⟨false, none, none⟩)
        (([.inputPart "hel", .outputPart "wor", .inputPart "lo"] :
          List TranscriptPartial).map partialMsg)).1 0 (fun _ => ⟨false, none, none⟩)
        turnCompleteMsg).1.currentInputTranscription = "" ∧
    (handleMessage (processAll initialState 0 (fun _ => ⟨false, none, none⟩)
        (([.inputPart "hel", .outputPart "wor", .inputPart "lo"] :
          List TranscriptPartial).map partialMsg)).1 0 (fun _ => ⟨false, none, none⟩)
        turnCompleteMsg).1.currentOutputTranscription = "" :=
  turn_complete_transcripts initialState 0 (fun _ => ⟨false, none, none⟩)
    [.inputPart "hel", .outputPart "wor", .inputPart "lo"] rfl rfl

/-- C6 counterexample: from a freshly connected session, calling
`disconnect` twice produces two status-callback invocations with false,
not exactly one — `disconnect` fires `onStatusChange(false)`
unconditionally at its top on every call. -/
theorem disconnect_twice_counterexample :
    ((disconnect (connect initialState true).1).2
        ++ (disconnect (disconnect (connect initialState true).1).1).2).count
      (Event.statusChange false) = 2 ∧
    ¬ ((disconnect (connect initialState true).1).2
        ++ (disconnect (disconnect (connect initialState true).1).1).2).count
      (Event.statusChange false) = 1 := by
  constructor <;> decide

/-- C6 amended: calling `disconnect()` twice in succession on a
connected session produces exactly two status-callback invocations with
false (one per call, since the callback fires unconditionally), releases
each device handle (capture stream, input audio context, output audio
context) exactly once with no double-release, and never fails. -/
theorem disconnect_twice_amended (st : LiveState)
    (hs : st.stream = true) (hi : st.inputAudioContext = true)
    (ha : st.audioContext = true) :
    (((disconnect st).2 ++ (disconnect (disconnect st).1).2).count
        (Event.statusChange false) = 2) ∧
    (((disconnect st).2 ++ (disconnect (disconnect st).1).2).count
        Event.releaseStream = 1) ∧
    (((disconnect st).2 ++ (disconnect (disconnect st).1).2).count
        Event.closeInputCtx = 1) ∧
    (((disconnect st).2 ++ (disconnect (disconnect st).1).2).count
        Event.closeOutputCtx = 1) := by
  simp [disconnect, hs, hi, ha, List.count_append, List.count_cons]

/-- Witness for C6 amended at the freshly connected state. -/
theorem disconnect_twice_amended_witness :
    (((disconnect (connect initialState true).1).2
        ++ (disconnect (disconnect (connect initialState true).1).1).2).count
        (Event.statusChange false) = 2) ∧
    (((disconnect (connect initialState true).1).2
        ++ (disconnect (disconnect (connect initialState true).1).1).2).count
        Event.releaseStream = 1) ∧
    (((disconnect (connect initialState true).1).2
        ++ (disconnect (disconnect (connect initialState true).1).1).2).count
        Event.closeInputCtx = 1) ∧
    (((disconnect (connect initialState true).1).2
        ++ (disconnect (disconnect (connect initialState true).1).1).2).count
        Event.closeOutputCtx = 1) :=
  disconnect_twice_amended (connect initialState true).1 rfl rfl rfl

/-- C7 counterexample: a successful `connect` run fires the status
callback with true within `connect` itself — after microphone
acquisition and before any transport open-confirmation can arrive — and
the open-confirmation handler (`handleOpen`) fires no status callback at
all. -/
theorem connect_status_counterexample :
    Event.statusChange true ∈ (connect initialState true).2.1 ∧
    (handleOpen (connect initialState true).1).2.count (Event.statusChange true) = 0 := by
  constructor <;> decide

/-- C7 amended: `connect` fires the status callback with true
immediately after device acquisition succeeds, before (not upon) the
transport open-confirmation; the open-confirmation handler fires no
status callback; on failure during `connect` the status callback fires
with false and the connection error is propagated to the caller. -/
theorem connect_status_amended (st : LiveState) :
    (connect st true).2.1 = [Event.statusChange true] ∧
    (connect st false).2.2 = false ∧
    Event.statusChange false ∈ (connect st false).2.1 ∧
    ∀ st2 : LiveState, (handleOpen st2).2.count (Event.statusChange true) = 0 := by
  refine ⟨rfl, rfl, ?_, ?_⟩
  · simp [connect, disconnect]
  · intro st2
    unfold handleOpen
    split <;> simp

/-- Recognize a tool response correlated to a given call id. -/
def isResponseTo (cid : String) : Event → Bool
  | Event.toolResponse i _ _ => i == cid
  | _ => false

/-- Recognize an `onImageGenerated` callback invocation. -/
def isImageCallback : Event → Bool
  | Event.imageGenerated _ => true
  | _ => false

/-- C8: a tool-call event with one `create_image` call, handled while
the session promise is live, sends exactly one correlated tool response
carrying the call's id; when the image action succeeds the
`onImageGenerated` callback fires exactly once, and when it fails the
callback fires zero times and the single response carries the
`"Error: "` marker.  (`handleToolCall` is a total function of the
oracle's result, so no action failure escapes the session boundary.) -/
theorem tool_roundtrip (st : LiveState) (oracle : String → ImageGenerationResult)
    (call : FunctionCall) (hp : st.sessionPromise = true)
    (hn : call.name = "create_image") :
    ((handleToolCall st oracle [call]).2.countP (isResponseTo call.id) = 1) ∧
    (((oracle call.args).success && strTruthy (oracle call.args).data) = true →
      (handleToolCall st oracle [call]).2.countP isImageCallback = 1) ∧
    (((oracle call.args).success && strTruthy (oracle call.args).data) = false →
      (handleToolCall st oracle [call]).2.countP isImageCallback = 0 ∧
      Event.toolResponse call.id call.name
          ("Error: " ++ jsShow (oracle call.args).error)
        ∈ (handleToolCall st oracle [call]).2) := by
  unfold handleToolCall processCall
  rcases hok : ((oracle call.args).success && strTruthy (oracle call.args).data) with _ | _
  · have hok2 : ¬((oracle call.args).success = true
        ∧ strTruthy (oracle call.args).data = true) := by
      rw [← Bool.and_eq_true, hok]
      simp
    simp only [hok, hn, hp, if_pos rfl, if_true, List.flatMap_cons, List.flatMap_nil,
      List.append_nil, if_neg hok2]
    simp [isResponseTo, isImageCallback, List.countP_cons]
  · have hok2 : (oracle call.args).success = true
        ∧ strTruthy (oracle call.args).data = true := Bool.and_eq_true _ _ |>.mp hok
    simp only [hok, hn, hp, if_pos rfl, if_true, List.flatMap_cons, List.flatMap_nil,
      List.append_nil, if_pos hok2]
    simp [isResponseTo, isImageCallback, List.countP_cons]

/-- Witness for C8: a success oracle and a failure oracle at a concrete
call. -/
theorem tool_roundtrip_witness :
    ((handleToolCall (connect initialState true).1
        (fun _ => ⟨true, some "IMG", none⟩)
        [⟨"id1", "create_image", "a cat"⟩]).2.countP (isResponseTo "id1") = 1) ∧
    (((fun _ : String => (⟨true, some "IMG", none⟩ : ImageGenerationResult)) "a cat").success
        && strTruthy (((fun _ : String => (⟨true, some "IMG", none⟩ : ImageGenerationResult)) "a cat")).data) = true ∧
    ((handleToolCall (connect initialState true).1
        (fun _ => ⟨true, some "IMG", none⟩)
        [⟨"id1", "create_image", "a cat"⟩]).2.countP isImageCallback = 1) ∧
    ((handleToolCall (connect initialState true).1
        (fun _ => ⟨false, none, some "boom"⟩)
        [⟨"id1", "create_image", "a cat"⟩]).2.countP isImageCallback = 0) ∧
    Event.toolResponse "id1" "create_image" ("Error: " ++ jsShow (some "boom"))
      ∈ (handleToolCall (connect initialState true).1
          (fun _ => ⟨false, none, some "boom"⟩)
          [⟨"id1", "create_image", "a cat"⟩]).2 := by
  refine ⟨(tool_roundtrip _ (fun _ => ⟨true, some "IMG", none⟩)
      ⟨"id1", "create_image", "a cat"⟩ rfl rfl).1, rfl,
    (tool_roundtrip _ (fun _ => ⟨true, some "IMG", none⟩)
      ⟨"id1", "create_image", "a cat"⟩ rfl rfl).2.1 rfl, ?_, ?_⟩
  · exact ((tool_roundtrip _ (fun _ => ⟨false, none, some "boom"⟩)
      ⟨"id1", "create_image", "a cat"⟩ rfl rfl).2.2 rfl).1
  · exact ((tool_roundtrip _ (fun _ => ⟨false, none, some "boom"⟩)
      ⟨"id1", "create_image", "a cat"⟩ rfl rfl).2.2 rfl).2

theorem chunkDuration_nonneg (d : List Char) : 0 ≤ chunkDuration d := by
  unfold chunkDuration
  positivity

theorem playAudio_cursor_le (st : LiveState) (now : ℚ) (d : List Char) :
    st.nextStartTime ≤ (playAudio st now d).1.nextStartTime := by
  unfold playAudio
  split
  · exact le_refl _
  · split
    · have h1 : st.nextStartTime ≤ max now st.nextStartTime := le_max_right _ _
      have h2 := chunkDuration_nonneg d
      simp only
      linarith
    · exact le_refl _

theorem handleMessage_cursor_noninterrupt (st : LiveState) (now : ℚ)
    (oracle : String → ImageGenerationResult) (msg : ServerMessage)
    (h : msg.interrupted = false) :
    st.nextStartTime ≤ (handleMessage st now oracle msg).1.nextStartTime := by
  rcases msg with ⟨ad, ot, it, tc, intr, tcs⟩
  simp only at h
  subst h
  unfold handleMessage
  cases ad <;> cases ot <;> cases it <;> cases tc <;> cases tcs <;>
    simp [handleToolCall] <;>
    (try split) <;>
    first
      | exact le_refl _
      | exact playAudio_cursor_le st now _

theorem handleMessage_cursor_interrupt (st : LiveState) (now : ℚ)
    (oracle : String → ImageGenerationResult) (msg : ServerMessage)
    (h : msg.interrupted = true) :
    (handleMessage st now oracle msg).1.nextStartTime = 0 := by
  rcases msg with ⟨ad, ot, it, tc, intr, tcs⟩
  simp only at h
  subst h
  unfold handleMessage
  cases ad <;> cases ot <;> cases it <;> cases tc <;> cases tcs <;>
    simp [handleToolCall, stopAudio]

/-- A session-level operation: an inbound message (with the clock value
and the image-action oracle in force while it is handled), a disconnect,
a connect attempt, or the transport open confirmation. -/
inductive Op where
  | message (now : ℚ) (oracle : String → ImageGenerationResult) (msg : ServerMessage)
  | disconnectOp
  | connectOp (userMediaOk : Bool)
  | openOp

/-- Step the session state by one operation. -/
def stepOp (st : LiveState) : Op → LiveState × List Event
  | .message now oracle msg => handleMessage st now oracle msg
  | .disconnectOp => disconnect st
  | .connectOp ok => ((connect st ok).1, (connect st ok).2.1)
  | .openOp => handleOpen st

/-- Whether an operation is the processing of an interruption event. -/
def isInterruptOp : Op → Bool
  | .message _ _ msg => msg.interrupted
  | _ => false

/-- C9: over every session operation, `nextStartTime` never decreases,
except that processing an interruption event resets it to zero. -/
theorem nextPlaybackTime_monotone (st : LiveState) (op : Op) :
    (isInterruptOp op = false → st.nextStartTime ≤ (stepOp st op).1.nextStartTime) ∧
    (isInterruptOp op = true → (stepOp st op).1.nextStartTime = 0) := by
  cases op with
  | message now oracle msg =>
      exact ⟨fun h => handleMessage_cursor_noninterrupt st now oracle msg h,
             fun h => handleMessage_cursor_interrupt st now oracle msg h⟩
  | disconnectOp =>
      exact ⟨fun _ => le_refl _, fun h => by simp [isInterruptOp] at h⟩
  | connectOp ok =>
      refine ⟨fun _ => ?_, fun h => by simp [isInterruptOp] at h⟩
      cases ok <;> simp [stepOp, connect, disconnect]
  | openOp =>
      refine ⟨fun _ => ?_, fun h => by simp [isInterruptOp] at h⟩
      simp only [stepOp, handleOpen]
      split <;> simp

/-- Witness for C9: a non-interrupting operation keeps the cursor, a
concrete interruption resets it to zero. -/
theorem nextPlaybackTime_monotone_witness :
    initialState.nextStartTime ≤ (stepOp initialState Op.disconnectOp).1.nextStartTime ∧
    (stepOp initialState
        (Op.message 0 (fun _ => ⟨false, none, none⟩) interruptionMsg)).1.nextStartTime = 0 :=
  ⟨(nextPlaybackTime_monotone initialState Op.disconnectOp).1 rfl,
   (nextPlaybackTime_monotone initialState
      (Op.message 0 (fun _ => ⟨false, none, none⟩) interruptionMsg)).2 rfl⟩

/-- C10: `disconnect` leaves the `nextStartTime` cursor unchanged while
clearing both transcript buffers and nulling the stream, the audio
contexts, and the session handle; a subsequent successful `connect` also
keeps the stale cursor, so the first chunk played afterwards is
scheduled at `max(now, staleCursor)` — the stale cursor, not 0, whenever
the live clock is behind it. -/
theorem disconnect_frame (st : LiveState) (now : ℚ) (d : List Char)
    (hd : (atob d).length % 2 = 0 ∧ (atob d).length ≠ 0) :
    (disconnect st).1.nextStartTime = st.nextStartTime ∧
    (disconnect st).1.currentInputTranscription = "" ∧
    (disconnect st).1.currentOutputTranscription = "" ∧
    (disconnect st).1.stream = false ∧
    (disconnect st).1.inputAudioContext = false ∧
    (disconnect st).1.audioContext = false ∧
    (disconnect st).1.sessionPromise = false ∧
    (connect (disconnect st).1 true).1.nextStartTime = st.nextStartTime ∧
    (playAudio (connect (disconnect st).1 true).1 now d).2
      = [Event.startSource (connect (disconnect st).1 true).1.sourceCounter
          (max now st.nextStartTime)] ∧
    (now < st.nextStartTime →
      (playAudio (connect (disconnect st).1 true).1 now d).2
        = [Event.startSource (connect (disconnect st).1 true).1.sourceCounter
            st.nextStartTime]) := by
  have hst : (connect (disconnect st).1 true).1
      = { st with audioContext := true, inputAudioContext := true, stream := true,
                  sessionPromise := true,
                  currentInputTranscription := "", currentOutputTranscription := "" } := rfl
  have hev : (playAudio (connect (disconnect st).1 true).1 now d).2
      = [Event.startSource (connect (disconnect st).1 true).1.sourceCounter
          (max now st.nextStartTime)] := by
    rw [hst]
    simp [playAudio, hd.1, hd.2]
  refine ⟨rfl, rfl, rfl, rfl, rfl, rfl, rfl, rfl, hev, ?_⟩
  intro hlt
  rw [hev, max_eq_right hlt.le]

/-- Witness for C10: cursor 5 survives disconnect and reconnect, and a
chunk enqueued at clock 1 is scheduled at the stale cursor 5. -/
theorem disconnect_frame_witness :
    (disconnect ⟨false, false, false, 5, [], 0, false, "", ""⟩).1.nextStartTime = 5 ∧
    (playAudio (connect (disconnect ⟨false, false, false, 5, [], 0, false, "", ""⟩).1 true).1
        1 ['A','A','A','=']).2
      = [Event.startSource
          (connect (disconnect ⟨false, false, false, 5, [], 0, false, "", ""⟩).1 true).1.sourceCounter
          (5 : ℚ)] := by
  have h := disconnect_frame ⟨false, false, false, 5, [], 0, false, "", ""⟩ 1
    ['A','A','A','='] (by decide)
  exact ⟨h.1, h.2.2.2.2.2.2.2.2.2 (by norm_num)⟩

/-! ### Gapless playback scheduling (`playAudio` over a run of chunks) -/

/-- A chunk whose decode does not throw inside `playAudio`'s try block:
an even, non-zero byte count. -/
def validChunk (d : List Char) : Prop :=
  (atob d).length % 2 = 0 ∧ (atob d).length ≠ 0

instance (d : List Char) : Decidable (validChunk d) := by
  unfold validChunk
  infer_instance

/-- Process a run of audio chunks, each tagged with the output clock
value at its enqueue. -/
def playRun : LiveState → List (ℚ × List Char) → LiveState × List Event
  | st, [] => (st, [])
  | st, (now, d) :: rest =>
      let r := playAudio st now d
      let r2 := playRun r.1 rest
      (r2.1, r.2 ++ r2.2)

/-- The scheduled start times recorded in an event trace, in order. -/
def startTimes (evs : List Event) : List ℚ :=
  evs.filterMap (fun e =>
    match e with
    | Event.startSource _ t => some t
    | _ => none)

theorem playAudio_valid (st : LiveState) (now : ℚ) (d : List Char)
    (hctx : st.audioContext = true) (hv : validChunk d) :
    playAudio st now d
      = ({ st with nextStartTime := max now st.nextStartTime + chunkDuration d,
                   sources := st.sources ++ [st.sourceCounter],
                   sourceCounter := st.sourceCounter + 1 },
         [Event.startSource st.sourceCounter (max now st.nextStartTime)]) := by
  unfold playAudio
  rw [if_neg (by rw [hctx]; simp)]
  exact if_pos hv

theorem playAudio_ctx (st : LiveState) (now : ℚ) (d : List Char) :
    (playAudio st now d).1.audioContext = st.audioContext := by
  unfold playAudio
  split
  · rfl
  · split <;> rfl

theorem playRun_cons_state (st : LiveState) (c : ℚ × List Char)
    (l : List (ℚ × List Char)) :
    (playRun st (c :: l)).1 = (playRun (playAudio st c.1 c.2).1 l).1 := by
  rcases c with ⟨now, d⟩
  rfl

theorem startTimes_playRun_cons (st : LiveState) (c : ℚ × List Char)
    (l : List (ℚ × List Char)) (hctx : st.audioContext = true)
    (hv : validChunk c.2) :
    startTimes (playRun st (c :: l)).2
      = max c.1 st.nextStartTime :: startTimes (playRun (playAudio st c.1 c.2).1 l).2 := by
  rcases c with ⟨now, d⟩
  show startTimes ((playAudio st now d).2 ++ (playRun (playAudio st now d).1 l).2) = _
  rw [playAudio_valid st now d hctx hv]
  simp [startTimes]

theorem playRun_gapless :
    ∀ (chunks : List (ℚ × List Char)) (st : LiveState),
    st.audioContext = true → (∀ c ∈ chunks, validChunk c.2) →
    (∀ i, i + 1 < chunks.length →
      (chunks.getD (i + 1) ((0 : ℚ), ([] : List Char))).1
        ≤ (playRun st (chunks.take (i + 1))).1.nextStartTime) →
    ∀ i, i + 1 < chunks.length →
      (startTimes (playRun st chunks).2).getD (i + 1) 0
        = (startTimes (playRun st chunks).2).getD i 0
          + chunkDuration (chunks.getD i ((0 : ℚ), ([] : List Char))).2
  | [], _, _, _, _, i, hi => by simp at hi
  | [c], _, _, _, _, i, hi => by simp at hi
  | c0 :: c1 :: rest, st, hctx, hcs, hclock, i, hi => by
      have hv0 : validChunk c0.2 := hcs c0 (by simp)
      have hv1 : validChunk c1.2 := hcs c1 (by simp)
      have hctx1 : (playAudio st c0.1 c0.2).1.audioContext = true := by
        rw [playAudio_ctx, hctx]
      cases i with
      | zero =>
          rw [startTimes_playRun_cons st c0 (c1 :: rest) hctx hv0,
            startTimes_playRun_cons _ c1 rest hctx1 hv1]
          have hcl := hclock 0 (by simp only [List.length_cons] at hi ⊢; omega)
          simp only [List.take_succ_cons, List.take_zero, List.getD_cons_succ,
            List.getD_cons_zero] at hcl ⊢
          have hrun1 : (playRun st [c0]).1 = (playAudio st c0.1 c0.2).1 := by
            rw [playRun_cons_state]
            rfl
          rw [hrun1] at hcl
          rw [playAudio_valid st c0.1 c0.2 hctx hv0] at hcl ⊢
          simp only [List.getD_cons_zero, List.getD_cons_succ] at *
          rw [max_eq_right hcl]
      | succ j =>
          have ih := playRun_gapless (c1 :: rest) (playAudio st c0.1 c0.2).1 hctx1
            (fun c hc => hcs c (by simp [hc]))
            (fun k hk => by
              have h2 := hclock (k + 1) (by simpa using hk)
              simp only [List.getD_cons_succ, List.take_succ_cons] at h2
              rw [playRun_cons_state] at h2
              exact h2)
            j (by simp only [List.length_cons] at hi ⊢; omega)
          rw [startTimes_playRun_cons st c0 (c1 :: rest) hctx hv0]
          simp only [List.getD_cons_succ]
          exact ih

/-- C2: with the output context live and chunks that decode, every
enqueue schedules at `max(currentTime, nextStartTime)` (never before the
live clock) and advances the cursor to that start plus the chunk's
duration; consequently, over any run of enqueues in which the output
clock never overtakes the cursor, consecutive start times satisfy
`start_(i+1) = start_i + duration_i` (gapless, in enqueue order). -/
theorem playback_schedule (st : LiveState) (now : ℚ) (d : List Char)
    (chunks : List (ℚ × List Char))
    (hctx : st.audioContext = true) (hd : validChunk d)
    (hcs : ∀ c ∈ chunks, validChunk c.2)
    (hclock : ∀ i, i + 1 < chunks.length →
      (chunks.getD (i + 1) ((0 : ℚ), ([] : List Char))).1
        ≤ (playRun st (chunks.take (i + 1))).1.nextStartTime) :
    (playAudio st now d).2
      = [Event.startSource st.sourceCounter (max now st.nextStartTime)] ∧
    now ≤ max now st.nextStartTime ∧
    (playAudio st now d).1.nextStartTime = max now st.nextStartTime + chunkDuration d ∧
    ∀ i, i + 1 < chunks.length →
      (startTimes (playRun st chunks).2).getD (i + 1) 0
        = (startTimes (playRun st chunks).2).getD i 0
          + chunkDuration (chunks.getD i ((0 : ℚ), ([] : List Char))).2 := by
  refine ⟨?_, le_max_left _ _, ?_, playRun_gapless chunks st hctx hcs hclock⟩
  · rw [playAudio_valid st now d hctx hd]
  · rw [playAudio_valid st now d hctx hd]

/-- A concrete transport chunk: base64 "AAA=", decoding to the two zero
bytes of one silent 16-bit sample. -/
def chunkAAAA : List Char := ['A', 'A', 'A', '=']

theorem atob_chunkAAAA : atob chunkAAAA = [0, 0] := by decide

theorem chunkDuration_AAAA : chunkDuration chunkAAAA = 1 / 24000 := by
  rw [chunkDuration, atob_chunkAAAA]
  norm_num [bytesToInt16s, toSigned16]

/-- Witness for C2 at a connected state with two silent chunks enqueued
at clock 0. -/
theorem playback_schedule_witness :
    (playAudio (connect initialState true).1 0 chunkAAAA).2
      = [Event.startSource (connect initialState true).1.sourceCounter
          (max 0 (connect initialState true).1.nextStartTime)] ∧
    (0 : ℚ) ≤ max 0 (connect initialState true).1.nextStartTime ∧
    (playAudio (connect initialState true).1 0 chunkAAAA).1.nextStartTime
      = max 0 (connect initialState true).1.nextStartTime + chunkDuration chunkAAAA ∧
    ∀ i, i + 1 < ([((0 : ℚ), chunkAAAA), ((0 : ℚ), chunkAAAA)]
        : List (ℚ × List Char)).length →
      (startTimes (playRun (connect initialState true).1
          [((0 : ℚ), chunkAAAA), ((0 : ℚ), chunkAAAA)]).2).getD (i + 1) 0
        = (startTimes (playRun (connect initialState true).1
            [((0 : ℚ), chunkAAAA), ((0 : ℚ), chunkAAAA)]).2).getD i 0
          + chunkDuration (([((0 : ℚ), chunkAAAA), ((0 : ℚ), chunkAAAA)]
              : List (ℚ × List Char)).getD i ((0 : ℚ), ([] : List Char))).2 := by
  have hv : validChunk chunkAAAA := by
    rw [validChunk, atob_chunkAAAA]
    simp
  refine playback_schedule (connect initialState true).1 0 chunkAAAA
    [((0 : ℚ), chunkAAAA), ((0 : ℚ), chunkAAAA)] rfl hv ?_ ?_
  · intro c hc
    simp only [List.mem_cons, List.not_mem_nil, or_false] at hc
    rcases hc with rfl | rfl <;> exact hv
  · intro i hi
    have h0 : i = 0 := by
      simp only [List.length_cons, List.length_nil] at hi
      omega
    subst h0
    show (0 : ℚ) ≤ (playRun (connect initialState true).1
        [((0 : ℚ), chunkAAAA)]).1.nextStartTime
    have hstep : (playRun (connect initialState true).1 [((0 : ℚ), chunkAAAA)]).1
        = (playAudio (connect initialState true).1 0 chunkAAAA).1 := rfl
    rw [hstep, playAudio_valid _ 0 chunkAAAA rfl hv]
    simp only
    rw [chunkDuration_AAAA,
      show (connect initialState true).1.nextStartTime = 0 from rfl]
    norm_num

end UniversalAI
